import Mathlib

/-!
Verification development for the rtk task pipeline (`rtk/task.py`).

The Python classes are shallowly embedded: the filesystem is an explicit
state value threaded through the operations, Python dictionaries are
association lists with insertion-order update semantics, fallible Python
code (raised exceptions) returns `Option`/`Except`, and the black-box
collaborators of `rtk/utils.py` (absent from the sources) are modelled
from the specification as oracle parameters or filesystem fields.
-/

namespace Rtk

/-- `InputType = Union[str, Tuple[str, str]]` from `rtk/task.py`. -/
inductive InputT where
  | s (v : String)
  | p (u d : String)
deriving DecidableEq

/-- Filesystem state.  `pathExists` models `os.path.exists`.
`validContent` is modelled from the spec: `validate_content(path) -> bool`,
the structural well-formedness oracle behind `utils.check_content`
(`rtk/utils.py` is not among the sources).  `csvRows` models the parsed
content of a CSV file on disk (`csv.reader` over the file), row by row. -/
structure FS where
  pathExists : String → Bool
  validContent : String → Bool
  csvRows : String → List (List String)

/-- Create (fully write) a file at path `p`. -/
def FS.write (fs : FS) (p : String) : FS :=
  { fs with pathExists := fun q => q == p || fs.pathExists q }

/-- `os.remove p`. -/
def FS.remove (fs : FS) (p : String) : FS :=
  { fs with pathExists := fun q => !(q == p) && fs.pathExists q }

/-- Python dict assignment `m[k] = v`: overwrite in place when the key is
present, otherwise append at the end (insertion order). -/
def dictSet {ι : Type} [DecidableEq ι] (m : List (ι × Bool)) (k : ι) (v : Bool) :
    List (ι × Bool) :=
  if m.any (fun q => decide (q.1 = k)) then
    m.map (fun q => if q.1 = k then (k, v) else q)
  else m ++ [(k, v)]

/-- Python dict read `m[k]` (as an `Option`). -/
def dictLookup {ι : Type} [DecidableEq ι] (m : List (ι × Bool)) (k : ι) : Option Bool :=
  (m.find? (fun q => decide (q.1 = k))).map (fun q => q.2)

/-- First character test (used for `str.startswith` on one character). -/
def strHeadIs (c : Char) (s : String) : Bool :=
  match s.data with
  | x :: _ => x == c
  | [] => false

/-- Last character test (used for `str.endswith` on one character). -/
def strLastIs (c : Char) (s : String) : Bool :=
  match s.data.getLast? with
  | some x => x == c
  | none => false

/-- `os.path.join` for two POSIX components. -/
def pathJoin (a b : String) : String :=
  if strHeadIs '/' b then b
  else if a = "" then b
  else if strLastIs '/' a then a ++ b
  else a ++ "/" ++ b

/-- Python `str.split` with an explicit one-character separator: keeps empty
parts, `"".split(sep) == [""]`. -/
def splitCharAux (c : Char) : List Char → List Char → List (List Char)
  | [], acc => [acc.reverse]
  | x :: xs, acc =>
    if x == c then acc.reverse :: splitCharAux c xs []
    else splitCharAux c xs (x :: acc)

def pySplitChar (c : Char) (s : String) : List String :=
  (splitCharAux c s.data []).map String.mk

/-- Index of the last occurrence of `c` (Python `str.rfind`): `-1` when absent. -/
def rfindIdx (c : Char) (s : List Char) : Int :=
  match s.reverse.findIdx? (fun x => x == c) with
  | none => -1
  | some i => ((s.length - 1 - i : Nat) : Int)

/-- Root part of `os.path.splitext`: drop the extension after the last dot of
the final path component, except when that component consists only of leading
dots up to the split point. -/
def splitextRoot (q : String) : String :=
  let s := q.data
  let dotIdx := rfindIdx '.' s
  let sepIdx := rfindIdx '/' s
  if decide (sepIdx < dotIdx) &&
      (List.range s.length).any
        (fun j => decide (sepIdx + 1 ≤ (j : Int)) && decide ((j : Int) < dotIdx) &&
          !(s.getD j '.' == '.')) then
    String.mk (s.take dotIdx.toNat)
  else q

/-- Containment of a character sequence (Python substring test). -/
def containsSeq (pat : List Char) : List Char → Bool
  | [] => pat.isEmpty
  | c :: rest => pat.isPrefixOf (c :: rest) || containsSeq pat rest

/-- Python substring test `needle in hay`. -/
def pyInStr (needle hay : String) : Bool :=
  containsSeq needle.data hay.data

/-- Left-to-right, non-overlapping replacement over character lists; the
fuel argument (instantiated with the list length) only makes the recursion
structural, one unit per step. -/
def replaceAux (pat rep : List Char) : Nat → List Char → List Char
  | _, [] => []
  | 0, s => s
  | Nat.succ fuel, c :: rest =>
    if pat.isPrefixOf (c :: rest) then
      rep ++ replaceAux pat rep fuel ((c :: rest).drop pat.length)
    else c :: replaceAux pat rep fuel rest

/-- Python `str.replace`: replace every non-overlapping occurrence of `pat`,
scanning left to right; with an empty pattern, `rep` is inserted before
every character and at the end. -/
def pyReplace (s pat rep : String) : String :=
  match pat.data with
  | [] => String.mk (rep.data ++ (s.data.map (fun c => c :: rep.data)).flatten)
  | q :: qs => String.mk (replaceAux (q :: qs) rep.data s.data.length s.data)

/-- `requires_processing` from `Task.process` (task.py lines 43-46): the dict
entries whose status is false, in dict order. -/
def requiresProcessing {ι : Type} (checked : List (ι × Bool)) : List ι :=
  (checked.filter (fun q => !q.2)).map Prod.fst

/-! ## KrakenLikeCommand (task.py lines 196-272) -/

structure KrakenLikeCommand where
  input_files : List String
  command : String
  workers : Nat
  output_format : String
  desc : String
  allow_failure : Bool
  check_content : Bool
  _checked_files : List (String × Bool)
  _output_files : List String

/-- `KrakenLikeCommand.__init__` (lines 201-216): rejects a command template
without `$out` with a `NameError` before anything else can run; a missing
(`None`) command is a `TypeError` from the `in` test. -/
def KrakenLikeCommand.make (input_files : List String) (command : Option String)
    (workers : Nat) (output_format : String) (desc : String)
    (allow_failure : Bool) (check_content : Bool) :
    Except String KrakenLikeCommand :=
  match command with
  | none => Except.error "TypeError: argument of type NoneType is not iterable"
  | some cmd =>
      if pyInStr "$out" cmd then
        Except.ok
          { input_files := input_files, command := cmd, workers := workers,
            output_format := output_format, desc := desc,
            allow_failure := allow_failure, check_content := check_content,
            _checked_files := [], _output_files := [] }
      else Except.error "NameError: $out is missing in the Kraken-like command"

def KrakenLikeCommand.makeOk {ε α : Type} (x : Except ε α) : Bool :=
  match x with
  | Except.ok _ => true
  | Except.error _ => false

/-- `KrakenLikeCommand.rename` (lines 218-219). -/
def KrakenLikeCommand.rename (t : KrakenLikeCommand) (inp : String) : String :=
  splitextRoot inp ++ "." ++ t.output_format

/-- `output_files` property (lines 221-226). -/
def KrakenLikeCommand.output_files (t : KrakenLikeCommand) : List String :=
  t._output_files.map t.rename

/-- The command line handed to `subprocess.Popen` inside `work`
(lines 247-254): `$out` is substituted first, then `$`. -/
def KrakenLikeCommand.spawnedCommand (t : KrakenLikeCommand) (sample : String) : String :=
  pyReplace (pyReplace t.command "$out" (t.rename sample)) "$" sample

/-- Loop body of `KrakenLikeCommand.check` (lines 229-240). -/
def KrakenLikeCommand.checkLoop (fs : FS) (t : KrakenLikeCommand) :
    List String → List (String × Bool) → Bool → List (String × Bool) × Bool
  | [], checked, all_done => (checked, all_done)
  | inp :: rest, checked, all_done =>
    let out := t.rename inp
    if fs.pathExists out then
      KrakenLikeCommand.checkLoop fs t rest
        (dictSet checked inp (if t.check_content then fs.validContent out else true))
        all_done
    else
      KrakenLikeCommand.checkLoop fs t rest (dictSet checked inp false) false

/-- `KrakenLikeCommand.check` (lines 228-242): populate `_checked_files`,
then extend `_output_files` with every dict entry currently true. -/
def KrakenLikeCommand.check (fs : FS) (t : KrakenLikeCommand) :
    KrakenLikeCommand × Bool :=
  let r := KrakenLikeCommand.checkLoop fs t t.input_files t._checked_files true
  ({ t with
      _checked_files := r.1,
      _output_files := t._output_files ++ (r.1.filter (fun q => q.2)).map Prod.fst },
    r.2)

/-- `KrakenLikeCommand._process` (lines 244-272), sequential executor model.
`runCmd` is the external Kraken-like binary, modelled from the spec as an
opaque command line: it maps the spawned command line and the current
filesystem to the new filesystem and the process exit code.  The outer
`Option` is `none` when `work` raises `InterruptedError` (fail-fast mode hits
a returncode of exactly 1); otherwise the collected successful samples are
appended, in order, to the accumulator. -/
def KrakenLikeCommand.processLoop (runCmd : String → FS → FS × Nat)
    (t : KrakenLikeCommand) :
    List String → FS → List String → Option (FS × List String)
  | [], fs, acc => some (fs, acc)
  | sample :: rest, fs, acc =>
    let r := runCmd (t.spawnedCommand sample) fs
    if r.2 == 1 then
      if t.allow_failure then KrakenLikeCommand.processLoop runCmd t rest r.1 acc
      else none
    else
      KrakenLikeCommand.processLoop runCmd t rest r.1 (acc ++ [sample])

/-- Result of one `Task.process()` invocation. -/
structure KLCResult where
  task : KrakenLikeCommand
  fs : FS
  retval : Option Bool
  submitted : List String
  nothingMsg : Bool

/-- `Task.process` (lines 41-50) specialized to `KrakenLikeCommand`: run
`check`, filter the pending inputs from the dict, either report "Nothing to
process here." and return `True`, or run the work loop (whose Python return
value is `None`).  The outer `Option` is the propagated `InterruptedError`. -/
def KrakenLikeCommand.processTask (runCmd : String → FS → FS × Nat)
    (t : KrakenLikeCommand) (fs : FS) : Option KLCResult :=
  let t1 := (KrakenLikeCommand.check fs t).1
  let pending := requiresProcessing t1._checked_files
  if pending.isEmpty then some ⟨t1, fs, some true, [], true⟩
  else
    match KrakenLikeCommand.processLoop runCmd t1 pending fs [] with
    | none => none
    | some (fs2, outs) =>
        some ⟨{ t1 with _output_files := t1._output_files ++ outs }, fs2, none,
          pending, false⟩

/-! ## Generic `Task.process` shell (task.py lines 41-50)

In Python, `Task.process` is a base-class method dispatching to the
variant's `check` and `_process`.  The shell below is that method with the
dynamically dispatched pieces as explicit fields. -/

structure TaskShell (σ ι : Type) where
  check : σ → σ × Bool
  checkedOf : σ → List (ι × Bool)
  procFn : σ → List ι → σ × Option Bool

/-- Observable outcome of one `Task.process()` call: resulting state, the
Python return value, the batch handed to `_process`, and whether the
"Nothing to process here." message was printed. -/
structure ProcessOutcome (σ ι : Type) where
  state : σ
  retval : Option Bool
  submitted : List ι
  nothingMsg : Bool

/-- `Task.process` (lines 41-50): call `check`, filter the unfinished dict
entries, and either return `True` after the nothing-to-process message or
delegate the pending batch to `_process`. -/
def TaskShell.process {σ ι : Type} (T : TaskShell σ ι) (s : σ) : ProcessOutcome σ ι :=
  let s1 := (T.check s).1
  let pending := requiresProcessing (T.checkedOf s1)
  if pending.isEmpty then ⟨s1, some true, [], true⟩
  else
    let r := T.procFn s1 pending
    ⟨r.1, r.2, pending, false⟩

/-! ## DownloadIIIFImageTask (task.py lines 60-134) -/

structure DownloadIIIFImageTask where
  input_files : List InputT
  workers : Nat
  downstream_check : Option (FS → InputT → Bool)
  _checked_files : List (InputT × Bool)
  _output_files : List InputT

/-- `DownloadIIIFImageTask.rename_download` (lines 75-77):
`os.path.join(file[1], file[0].split("/")[-5] + ".jpg")`.  On a bare string
input, `file[1]`/`file[0]` are single characters, so the `[-5]` negative
index always raises `IndexError`; on a pair whose URI has fewer than five
`/`-separated components, `[-5]` raises as well.  Raised exceptions are
`none`. -/
def rename_download (file : InputT) : Option String :=
  match file with
  | InputT.p u d =>
      let parts := pySplitChar '/' u
      if 5 ≤ parts.length then
        some (pathJoin d (parts.getD (parts.length - 5) "" ++ ".jpg"))
      else none
  | InputT.s _ => none

/-- The inputs the image task actually operates on: pairs whose URI has at
least five `/`-separated components, the domain of `rename_download`. -/
def wfInput : InputT → Prop
  | InputT.p u _ => 5 ≤ (pySplitChar '/' u).length
  | InputT.s _ => False

instance : DecidablePred wfInput := fun f =>
  match f with
  | InputT.p _ _ => inferInstanceAs (Decidable (5 ≤ _))
  | InputT.s _ => inferInstanceAs (Decidable False)

/-- Loop body of `DownloadIIIFImageTask.check` (lines 97-111); the third
accumulator is the `_output_files` extension collected by the exists branch. -/
def DownloadIIIFImageTask.checkLoop (fs : FS) (dsc : Option (FS → InputT → Bool)) :
    List InputT → List (InputT × Bool) → List InputT → Bool →
    Option (List (InputT × Bool) × List InputT × Bool)
  | [], checked, outs, all_done => some (checked, outs, all_done)
  | f :: rest, checked, outs, all_done => do
      let out ← rename_download f
      if fs.pathExists out then
        DownloadIIIFImageTask.checkLoop fs dsc rest (dictSet checked f true)
          (outs ++ [f]) all_done
      else
        match dsc with
        | some c =>
            DownloadIIIFImageTask.checkLoop fs dsc rest
              (dictSet checked f (c fs f)) outs (all_done && c fs f)
        | none =>
            DownloadIIIFImageTask.checkLoop fs dsc rest
              (dictSet checked f false) outs false

/-- `DownloadIIIFImageTask.check` (lines 97-111). -/
def DownloadIIIFImageTask.check (fs : FS) (t : DownloadIIIFImageTask) :
    Option (DownloadIIIFImageTask × Bool) := do
  let r ← DownloadIIIFImageTask.checkLoop fs t.downstream_check t.input_files
    t._checked_files [] true
  some ({ t with _checked_files := r.1, _output_files := t._output_files ++ r.2.1 },
    r.2.2)

/-- Sequential download of the batch prefix reached before the interrupt,
mirroring lines 113-124.  `utils.download` is absent from the sources;
modelled from the spec: `fetch_to(uri, destinationPath) -> destinationPath|failure`
writes the destination file on success, and the success value recorded in
the `done` list identifies the fetched item — the spec's interrupt rule
("delete partially-written target files for all not-yet-confirmed-done
items") fixes the recorded identity to the item's URI, which the cleanup
compares against `done`.  `succ` says whether an item's fetch succeeds;
`halfWritten` whether a failed fetch leaves a partially written target. -/
def DownloadIIIFImageTask.downloadPhase (succ halfWritten : InputT → Bool) :
    List InputT → FS → List String → Option (FS × List String)
  | [], fs, done => some (fs, done)
  | f :: rest, fs, done =>
    match f with
    | InputT.p url dir =>
      match rename_download (InputT.p url dir) with
      | some tgt =>
          if succ (InputT.p url dir) then
            DownloadIIIFImageTask.downloadPhase succ halfWritten rest (fs.write tgt)
              (if url == "" then done else done ++ [url])
          else
            DownloadIIIFImageTask.downloadPhase succ halfWritten rest
              (if halfWritten (InputT.p url dir) then fs.write tgt else fs) done
      | none => none
    | InputT.s _ => none

/-- The `except KeyboardInterrupt` handler (lines 125-132): for every batch
input whose URL is not in `done`, remove the target file when present.
Unpacking `for url, directory in inputs` over a bare string succeeds only
for a two-character string (two one-character components); any other bare
string raises `ValueError`, and a one-character URL then makes
`rename_download` raise inside the handler. -/
def DownloadIIIFImageTask.interruptCleanup (done : List String) :
    List InputT → FS → Option FS
  | [], fs => some fs
  | i :: rest, fs =>
    match i with
    | InputT.p url dir =>
      if done.contains url then
        DownloadIIIFImageTask.interruptCleanup done rest fs
      else
        match rename_download (InputT.p url dir) with
        | some tgt =>
            DownloadIIIFImageTask.interruptCleanup done rest
              (if fs.pathExists tgt then fs.remove tgt else fs)
        | none => none
    | InputT.s v =>
      match v.data with
      | [c1, _] =>
          if done.contains (String.mk [c1]) then
            DownloadIIIFImageTask.interruptCleanup done rest fs
          else none
      | _ => none

/-- `DownloadIIIFImageTask._process` (lines 113-134) in the run where a
`KeyboardInterrupt` arrives after the first `k` batch items: the prefix is
downloaded, the handler deletes the targets of all items not recorded done,
and line 133 still extends `_output_files` with the gathered results (the
recorded URIs land there as bare strings). -/
def DownloadIIIFImageTask.processInterrupted (succ halfWritten : InputT → Bool)
    (t : DownloadIIIFImageTask) (inputs : List InputT) (k : Nat) (fs : FS) :
    Option (DownloadIIIFImageTask × FS × List String) := do
  let r ← DownloadIIIFImageTask.downloadPhase succ halfWritten (inputs.take k) fs []
  let fs2 ← DownloadIIIFImageTask.interruptCleanup r.2 inputs r.1
  some ({ t with _output_files := t._output_files ++ r.2.map InputT.s }, fs2, r.2)

/-! ## DownloadIIIFManifestTask (task.py lines 137-193) -/

structure DownloadIIIFManifestTask where
  input_files : List String
  workers : Nat
  naming_function : String → String
  output_directory : String

/-- `DownloadIIIFManifestTask.rename_download` (lines 154-155).
`utils.change_ext` is absent from the sources; modelled from the spec:
`change_extension(path, ext) -> path`, replacing the extension of the named
file. -/
def DownloadIIIFManifestTask.rename_download (t : DownloadIIIFManifestTask)
    (file : String) : String :=
  pathJoin t.output_directory (splitextRoot (t.naming_function file) ++ ".csv")

/-- Loop body of the `output_files` property (lines 163-169). -/
def DownloadIIIFManifestTask.outputLoop (fs : FS) (t : DownloadIIIFManifestTask) :
    List String → List (List String)
  | [] => []
  | f :: rest =>
    (if fs.pathExists (t.rename_download f) then fs.csvRows (t.rename_download f)
     else []) ++
      DownloadIIIFManifestTask.outputLoop fs t rest

/-- `output_files` property (lines 157-170): re-read each input's index file
from disk, in input order, and concatenate the parsed rows of those whose
index file exists. -/
def DownloadIIIFManifestTask.output_files (fs : FS) (t : DownloadIIIFManifestTask) :
    List (List String) :=
  DownloadIIIFManifestTask.outputLoop fs t t.input_files

/-! ## Dictionary lemmas -/

theorem dictLookup_nil {ι : Type} [DecidableEq ι] (k : ι) :
    dictLookup ([] : List (ι × Bool)) k = none := rfl

theorem dictLookup_cons {ι : Type} [DecidableEq ι] (a : ι × Bool)
    (m : List (ι × Bool)) (k : ι) :
    dictLookup (a :: m) k = if a.1 = k then some a.2 else dictLookup m k := by
  by_cases h : a.1 = k
  · simp [dictLookup, List.find?, h]
  · simp [dictLookup, List.find?, decide_eq_false h, h]

theorem dictLookup_map_upd {ι : Type} [DecidableEq ι] (m : List (ι × Bool))
    (k k' : ι) (v : Bool) :
    dictLookup (m.map (fun q => if q.1 = k then (k, v) else q)) k' =
      if k' = k then (if m.any (fun q => decide (q.1 = k)) then some v else none)
      else dictLookup m k' := by
  induction m with
  | nil => by_cases h : k' = k <;> simp [dictLookup, h]
  | cons a m ih =>
    rw [List.map_cons, dictLookup_cons, dictLookup_cons, List.any_cons]
    by_cases hak : a.1 = k
    · rw [if_pos hak]
      by_cases hk : k' = k
      · subst hk
        simp [hak]
      · have h1 : ¬(((k, v) : ι × Bool).1 = k') := fun h => hk h.symm
        have h2 : ¬(a.1 = k') := fun h => hk ((hak.symm.trans h).symm)
        rw [if_neg h1, ih, if_neg hk, if_neg hk, if_neg h2]
    · rw [if_neg hak]
      by_cases hk : k' = k
      · subst hk
        rw [if_neg hak, ih, if_pos rfl, if_pos rfl, decide_eq_false hak]
        simp
      · rw [ih, if_neg hk, if_neg hk]

theorem dictLookup_append_single {ι : Type} [DecidableEq ι] (m : List (ι × Bool))
    (k k' : ι) (v : Bool) :
    dictLookup (m ++ [(k, v)]) k' =
      ((dictLookup m k').orElse (fun _ => if k' = k then some v else none)) := by
  induction m with
  | nil =>
    by_cases h : k' = k
    · subst h
      simp [dictLookup, List.find?, Option.orElse]
    · have : ¬((k, v).1 = k') := fun h2 => h h2.symm
      simp [dictLookup_nil, dictLookup_cons, this, if_neg h, Option.orElse, dictLookup]
  | cons a m ih =>
    rw [List.cons_append, dictLookup_cons, dictLookup_cons]
    by_cases h : a.1 = k'
    · simp [h, Option.orElse]
    · rw [if_neg h, if_neg h, ih]

/-- Python dict assignment seen through lookup. -/
theorem dictLookup_dictSet {ι : Type} [DecidableEq ι] (m : List (ι × Bool))
    (k k' : ι) (v : Bool) :
    dictLookup (dictSet m k v) k' = if k' = k then some v else dictLookup m k' := by
  unfold dictSet
  by_cases hmem : m.any (fun q => decide (q.1 = k))
  · rw [if_pos hmem, dictLookup_map_upd, hmem]
    by_cases hk : k' = k <;> simp [hk]
  · rw [if_neg hmem, dictLookup_append_single]
    by_cases hk : k' = k
    · subst hk
      have hnone : dictLookup m k' = none := by
        unfold dictLookup
        rw [List.find?_eq_none.2]
        · rfl
        · intro q hq
          simp only [decide_eq_true_eq]
          intro hq1
          exact hmem (List.any_eq_true.2 ⟨q, hq, by simp [hq1]⟩)
      rw [hnone, if_pos rfl]
      rfl
    · cases h : dictLookup m k' with
      | none => rfl
      | some b =>
        have h2 : ((some b).orElse fun _ => if k' = k then some v else none) = some b := rfl
        rw [h2, if_neg hk]

theorem dictSet_keys_map {ι : Type} [DecidableEq ι] (m : List (ι × Bool))
    (k : ι) (v : Bool) (h : m.any (fun q => decide (q.1 = k))) :
    (dictSet m k v).map Prod.fst = m.map Prod.fst := by
  unfold dictSet
  rw [if_pos h, List.map_map]
  apply List.map_congr_left
  intro q _
  by_cases hq : q.1 = k <;> simp [hq]

/-- `dictSet` preserves the no-duplicate-keys invariant of Python dicts. -/
theorem dictSet_nodupKeys {ι : Type} [DecidableEq ι] (m : List (ι × Bool))
    (k : ι) (v : Bool) (h : (m.map Prod.fst).Nodup) :
    ((dictSet m k v).map Prod.fst).Nodup := by
  by_cases hmem : m.any (fun q => decide (q.1 = k))
  · rw [dictSet_keys_map m k v hmem]; exact h
  · unfold dictSet
    rw [if_neg hmem, List.map_append]
    simp only [List.map_cons, List.map_nil]
    rw [List.nodup_append]
    refine ⟨h, List.nodup_singleton k, ?_⟩
    intro a ha hb
    simp only [List.mem_singleton] at hb
    subst hb
    rcases List.mem_map.1 ha with ⟨q, hq, hq1⟩
    exact hmem (List.any_eq_true.2 ⟨q, hq, by simp [hq1]⟩)

/-- With no duplicate keys, dict membership is exactly lookup. -/
theorem mem_iff_dictLookup {ι : Type} [DecidableEq ι] {m : List (ι × Bool)}
    (hnd : (m.map Prod.fst).Nodup) (k : ι) (v : Bool) :
    (k, v) ∈ m ↔ dictLookup m k = some v := by
  induction m with
  | nil => simp [dictLookup]
  | cons a m ih =>
    obtain ⟨a1, a2⟩ := a
    simp only [List.map_cons, List.nodup_cons] at hnd
    rw [dictLookup_cons, List.mem_cons]
    by_cases hk : a1 = k
    · subst hk
      rw [if_pos rfl]
      constructor
      · rintro (h | h)
        · injection h with h1 h2
          exact congrArg some h2.symm
        · exact absurd (List.mem_map.2 ⟨(a1, v), h, rfl⟩) hnd.1
      · intro h
        have hv : a2 = v := Option.some.inj h
        exact Or.inl (by rw [← hv])
    · rw [if_neg hk]
      constructor
      · rintro (h | h)
        · injection h with h1 h2
          exact absurd h1.symm hk
        · exact (ih hnd.2).1 h
      · intro h
        exact Or.inr ((ih hnd.2).2 h)

/-- A key cannot carry two different values in a no-duplicate-keys dict. -/
theorem dict_value_unique {ι : Type} [DecidableEq ι] {m : List (ι × Bool)}
    (hnd : (m.map Prod.fst).Nodup) {k : ι} {v w : Bool}
    (h1 : (k, v) ∈ m) (h2 : (k, w) ∈ m) : v = w := by
  have e1 := (mem_iff_dictLookup hnd k v).1 h1
  have e2 := (mem_iff_dictLookup hnd k w).1 h2
  rw [e1] at e2
  exact Option.some.inj e2

theorem mem_requiresProcessing {ι : Type} (m : List (ι × Bool)) (x : ι) :
    x ∈ requiresProcessing m ↔ (x, false) ∈ m := by
  simp only [requiresProcessing, List.mem_map, List.mem_filter, Bool.not_eq_true']
  constructor
  · rintro ⟨q, ⟨hq, hq2⟩, hq1⟩
    obtain ⟨q1, q2⟩ := q
    simp only at hq1 hq2
    rw [← hq1, ← hq2]
    exact hq
  · intro h
    exact ⟨(x, false), ⟨h, rfl⟩, rfl⟩

theorem requiresProcessing_eq_nil {ι : Type} (m : List (ι × Bool))
    (h : ∀ q ∈ m, q.2 = true) : requiresProcessing m = [] := by
  unfold requiresProcessing
  rw [List.filter_eq_nil_iff.2, List.map_nil]
  intro q hq
  simp [h q hq]

/-! ## KrakenLikeCommand check/process lemmas -/

/-- The completion value `check` computes for one input (lines 235-239). -/
def KrakenLikeCommand.checkValue (fs : FS) (t : KrakenLikeCommand) (k : String) : Bool :=
  if fs.pathExists (t.rename k) then
    (if t.check_content then fs.validContent (t.rename k) else true)
  else false

theorem klc_checkLoop_lookup (fs : FS) (t : KrakenLikeCommand) (inputs : List String)
    (m : List (String × Bool)) (b : Bool) (k : String) :
    dictLookup (KrakenLikeCommand.checkLoop fs t inputs m b).1 k =
      if k ∈ inputs then some (t.checkValue fs k) else dictLookup m k := by
  induction inputs generalizing m b with
  | nil => simp [KrakenLikeCommand.checkLoop]
  | cons f rest ih =>
    have hstep : ∀ b', (KrakenLikeCommand.checkLoop fs t (f :: rest) m b').1 =
        (KrakenLikeCommand.checkLoop fs t rest (dictSet m f (t.checkValue fs f))
          (if fs.pathExists (t.rename f) then b' else false)).1 := by
      intro b'
      by_cases h : fs.pathExists (t.rename f) <;>
        simp [KrakenLikeCommand.checkLoop, KrakenLikeCommand.checkValue, h]
    rw [hstep b, ih]
    by_cases hk : k ∈ rest
    · rw [if_pos hk, if_pos (List.mem_cons_of_mem f hk)]
    · rw [if_neg hk, dictLookup_dictSet]
      by_cases hf : k = f
      · subst hf
        rw [if_pos rfl, if_pos (List.mem_cons_self k rest)]
      · rw [if_neg hf, if_neg (by
          intro h
          rcases List.mem_cons.1 h with h | h
          · exact hf h
          · exact hk h)]

theorem klc_checkLoop_nodupKeys (fs : FS) (t : KrakenLikeCommand)
    (inputs : List String) (m : List (String × Bool)) (b : Bool)
    (h : (m.map Prod.fst).Nodup) :
    (((KrakenLikeCommand.checkLoop fs t inputs m b).1).map Prod.fst).Nodup := by
  induction inputs generalizing m b with
  | nil => exact h
  | cons f rest ih =>
    unfold KrakenLikeCommand.checkLoop
    by_cases hex : fs.pathExists (t.rename f) <;>
      simp only [hex, if_pos, if_neg, Bool.false_eq_true, ite_true, ite_false] <;>
      exact ih _ _ (dictSet_nodupKeys _ _ _ h)

theorem klc_checkLoop_lookup_none (fs : FS) (t : KrakenLikeCommand)
    (inputs : List String) (m : List (String × Bool)) (b : Bool) (k : String)
    (hk : k ∉ inputs) (hm : dictLookup m k = none) :
    dictLookup (KrakenLikeCommand.checkLoop fs t inputs m b).1 k = none := by
  rw [klc_checkLoop_lookup, if_neg hk]
  exact hm

/-- All-success run of `_process` (lines 244-272): when every invocation of
the external command exits with a code other than 1 and creates exactly its
item's renamed output file (leaving the rest of the filesystem alone), the
loop completes, records every sample in order, and the resulting filesystem
has exactly the renamed outputs added. -/
theorem klc_processLoop_success (runCmd : String → FS → FS × Nat)
    (t : KrakenLikeCommand) (l : List String) (fs : FS) (acc : List String)
    (h : ∀ s ∈ l, ∀ fs' : FS,
      (runCmd (t.spawnedCommand s) fs').2 ≠ 1 ∧
      (∀ q, ((runCmd (t.spawnedCommand s) fs').1.pathExists q) =
        (fs'.pathExists q || (q == t.rename s))) ∧
      (∀ q, ((runCmd (t.spawnedCommand s) fs').1.validContent q) =
        (fs'.validContent q || (q == t.rename s)))) :
    ∃ fs2, KrakenLikeCommand.processLoop runCmd t l fs acc = some (fs2, acc ++ l) ∧
      (∀ q, fs2.pathExists q = (fs.pathExists q || l.any (fun s => q == t.rename s))) ∧
      (∀ q, fs2.validContent q = (fs.validContent q || l.any (fun s => q == t.rename s))) := by
  induction l generalizing fs acc with
  | nil =>
    refine ⟨fs, by simp [KrakenLikeCommand.processLoop], ?_, ?_⟩ <;> simp
  | cons s rest ih =>
    obtain ⟨hcode, hpath, hvalid⟩ := h s (List.mem_cons_self s rest) fs
    have hbeq : ((runCmd (t.spawnedCommand s) fs).2 == 1) = false := by
      simp only [beq_eq_false_iff_ne, ne_eq]
      exact hcode
    obtain ⟨fs2, hloop, hp2, hv2⟩ :=
      ih (runCmd (t.spawnedCommand s) fs).1 (acc ++ [s])
        (fun x hx => h x (List.mem_cons_of_mem s hx))
    refine ⟨fs2, ?_, ?_, ?_⟩
    · simp only [KrakenLikeCommand.processLoop, hbeq, Bool.false_eq_true, if_false]
      simpa [List.append_assoc] using hloop
    · intro q
      rw [hp2 q, hpath q, List.any_cons, Bool.or_assoc]
    · intro q
      rw [hv2 q, hvalid q, List.any_cons, Bool.or_assoc]

/-! ## DownloadIIIFManifestTask lemmas -/

theorem dim_outputLoop_eq (fs : FS) (t : DownloadIIIFManifestTask) (l : List String) :
    DownloadIIIFManifestTask.outputLoop fs t l =
      (l.map (fun f =>
        if fs.pathExists (t.rename_download f) then fs.csvRows (t.rename_download f)
        else [])).flatten := by
  induction l with
  | nil => rfl
  | cons f rest ih => simp [DownloadIIIFManifestTask.outputLoop, ih]

theorem dim_outputLoop_congr (fs1 fs2 : FS) (t : DownloadIIIFManifestTask)
    (l : List String)
    (h : ∀ f ∈ l,
      fs1.pathExists (t.rename_download f) = fs2.pathExists (t.rename_download f) ∧
      fs1.csvRows (t.rename_download f) = fs2.csvRows (t.rename_download f)) :
    DownloadIIIFManifestTask.outputLoop fs1 t l =
      DownloadIIIFManifestTask.outputLoop fs2 t l := by
  induction l with
  | nil => rfl
  | cons f rest ih =>
    obtain ⟨h1, h2⟩ := h f (List.mem_cons_self f rest)
    unfold DownloadIIIFManifestTask.outputLoop
    rw [h1, h2, ih (fun x hx => h x (List.mem_cons_of_mem f hx))]

/-! ## Concrete instances used by counterexamples, bug evaluations and
witnesses -/

/-- An empty filesystem. -/
def fsEmpty : FS := ⟨fun _ => false, fun _ => false, fun _ => []⟩

/-- A filesystem where only `a.xml` exists, with invalid content. -/
def fsAxmlInvalid : FS := ⟨fun p => p == "a.xml", fun _ => false, fun _ => []⟩

/-- A filesystem where only `a.xml` exists, with valid content. -/
def fsAxmlValid : FS := ⟨fun p => p == "a.xml", fun p => p == "a.xml", fun _ => []⟩

/-- A Kraken-like task over the single page `a.png`, tolerant mode. -/
def klcTolerant : KrakenLikeCommand :=
  { input_files := ["a.png"], command := "bin $ $out", workers := 1,
    output_format := "xml", desc := "kraken-like", allow_failure := true,
    check_content := false, _checked_files := [], _output_files := [] }

/-- A Kraken-like task over the single page `a.png`, fail-fast mode. -/
def klcFailFast : KrakenLikeCommand :=
  { klcTolerant with allow_failure := false }

/-- A Kraken-like task over `a.png` with content checking enabled. -/
def klcContent : KrakenLikeCommand :=
  { klcTolerant with check_content := true }

/-- An external command whose every invocation exits with code 1 and leaves
the filesystem alone. -/
def rcExit1 : String → FS → FS × Nat := fun _ fs => (fs, 1)

/-- An external command whose every invocation exits with code 2 and leaves
the filesystem alone. -/
def rcExit2 : String → FS → FS × Nat := fun _ fs => (fs, 2)

/-- An external command that succeeds (exit 0) and creates the valid output
file `a.xml`. -/
def rcCreateAxml : String → FS → FS × Nat := fun _ fs =>
  (⟨fun p => fs.pathExists p || p == "a.xml",
    fun p => fs.validContent p || p == "a.xml", fs.csvRows⟩, 0)

/-! ## Claims -/

/-- Claim C10: `DownloadIIIFImageTask.rename_download` is partial at the
public interface: it produces an output path exactly when the input is a
(URI, directory) pair whose URI has at least five slash-separated
components, in which case it joins the directory with the fifth-from-last
segment plus ".jpg"; a bare-string input or a shorter URI makes the
computation fail (raise) instead of returning a path. -/
theorem claim_C10_rename_download_domain :
    (∀ u d, rename_download (InputT.p u d) =
      if 5 ≤ (pySplitChar '/' u).length then
        some (pathJoin d
          ((pySplitChar '/' u).getD ((pySplitChar '/' u).length - 5) "" ++ ".jpg"))
      else none)
    ∧ (∀ u d, (rename_download (InputT.p u d)).isSome =
        decide (5 ≤ (pySplitChar '/' u).length))
    ∧ (∀ v, rename_download (InputT.s v) = none) := by
  refine ⟨fun u d => rfl, fun u d => ?_, fun v => rfl⟩
  unfold rename_download
  by_cases h : 5 ≤ (pySplitChar '/' u).length <;> simp [h]

/-- Command substitution as the spec words it (section 4.2): replace the
output placeholder with the computed output path for the input, then the
input placeholder with the input path itself. -/
def specCommandLine (template outPath inPath : String) : String :=
  pyReplace (pyReplace template "$out" outPath) "$" inPath

/-- Claim C9: the command line `KrakenLikeCommand` spawns is obtained by
substituting `$out` with the computed output path first and `$` with the
input path second, in that order; on a concrete template the `$out`
occurrence is consumed as a whole before the bare `$` is replaced. -/
theorem claim_C9_substitution_order :
    (∀ (t : KrakenLikeCommand) (sample : String),
      t.spawnedCommand sample = specCommandLine t.command (t.rename sample) sample)
    ∧ KrakenLikeCommand.spawnedCommand klcTolerant "a.png" = "bin a.png a.xml" := by
  exact ⟨fun t sample => rfl, by decide⟩

/-- Claim C6: constructing a `KrakenLikeCommand` fails with the
construction-time error exactly when the command template lacks the `$out`
placeholder, and succeeds whenever the template contains `$out`. -/
theorem claim_C6_constructor_requires_out :
    ∀ (ifs : List String) (cmd : String) (w : Nat) (fmt d : String) (af cc : Bool),
      KrakenLikeCommand.makeOk (KrakenLikeCommand.make ifs (some cmd) w fmt d af cc) =
        pyInStr "$out" cmd := by
  intro ifs cmd w fmt d af cc
  unfold KrakenLikeCommand.make KrakenLikeCommand.makeOk
  by_cases h : pyInStr "$out" cmd <;> simp [h]

/-- Claim C5: `DownloadIIIFManifestTask.output_files` is recomputed from the
filesystem on each read: it is the concatenation, over the inputs in order,
of the parsed index rows of each input whose index file exists on disk; its
length is the sum of the per-input row counts; and it depends on the
filesystem only through the index paths of the inputs (no in-memory cache). -/
theorem claim_C5_manifest_output_files :
    (∀ (fs : FS) (t : DownloadIIIFManifestTask),
      DownloadIIIFManifestTask.output_files fs t =
        (t.input_files.map (fun f =>
          if fs.pathExists (t.rename_download f) then fs.csvRows (t.rename_download f)
          else [])).flatten)
    ∧ (∀ (fs : FS) (t : DownloadIIIFManifestTask),
        (DownloadIIIFManifestTask.output_files fs t).length =
          (t.input_files.map (fun f =>
            if fs.pathExists (t.rename_download f) then
              (fs.csvRows (t.rename_download f)).length
            else 0)).sum)
    ∧ (∀ (fs1 fs2 : FS) (t : DownloadIIIFManifestTask),
        (∀ f ∈ t.input_files,
          fs1.pathExists (t.rename_download f) = fs2.pathExists (t.rename_download f) ∧
          fs1.csvRows (t.rename_download f) = fs2.csvRows (t.rename_download f)) →
        DownloadIIIFManifestTask.output_files fs1 t =
          DownloadIIIFManifestTask.output_files fs2 t) := by
  refine ⟨fun fs t => dim_outputLoop_eq fs t t.input_files, fun fs t => ?_, ?_⟩
  · rw [DownloadIIIFManifestTask.output_files, dim_outputLoop_eq]
    rw [List.length_flatten, List.map_map]
    congr 1
    apply List.map_congr_left
    intro f _
    by_cases h : fs.pathExists (t.rename_download f) <;> simp [h]
  · intro fs1 fs2 t h
    exact dim_outputLoop_congr fs1 fs2 t t.input_files h

/-- A one-manifest task whose index file is `out/m1.csv`. -/
def dimDemo : DownloadIIIFManifestTask :=
  { input_files := ["m1"], workers := 1, naming_function := fun s => s,
    output_directory := "out" }

/-- Two filesystems agreeing on `out/m1.csv` but nowhere else. -/
def fsIndexA : FS :=
  ⟨fun p => p == "out/m1.csv" || p == "something-else",
   fun _ => false, fun p => if p == "out/m1.csv" then [["u1", "d1"], ["u2", "d2"]] else []⟩

def fsIndexB : FS :=
  ⟨fun p => p == "out/m1.csv",
   fun _ => true, fun p => if p == "out/m1.csv" then [["u1", "d1"], ["u2", "d2"]] else [["x"]]⟩

theorem claim_C5_witness :
    DownloadIIIFManifestTask.output_files fsIndexA dimDemo =
      DownloadIIIFManifestTask.output_files fsIndexB dimDemo :=
  claim_C5_manifest_output_files.2.2 fsIndexA fsIndexB dimDemo (by decide)

/-- Claim C2 (bug evaluation): with content checking enabled, an input whose
renamed output exists but fails the content validation gets a false
`CompletionMap` entry, yet `check()` still returns `True` — the claim says
`check()` returns true iff every input is done. -/
theorem claim_C2_check_return_bug :
    (KrakenLikeCommand.check fsAxmlInvalid klcContent).2 = true ∧
    dictLookup (KrakenLikeCommand.check fsAxmlInvalid klcContent).1._checked_files
      "a.png" = some false := by
  exact ⟨rfl, rfl⟩

/-- Claim C3 (bug evaluation): an external command exiting with the nonzero
code 2 is treated as a success by `_process` — the item is recorded in the
output set and no error is raised even in fail-fast mode — while an exit
code of exactly 1 does raise in fail-fast mode; the claim says any nonzero
exit code is a failure. -/
theorem claim_C3_exit_code_bug :
    KrakenLikeCommand.processLoop rcExit2 klcFailFast ["a.png"] fsEmpty [] =
      some (fsEmpty, ["a.png"]) ∧
    KrakenLikeCommand.processLoop rcExit1 klcFailFast ["a.png"] fsEmpty [] = none := by
  exact ⟨rfl, rfl⟩

/-! ## Task.process shell lemmas and claims C7, C8 -/

theorem taskShell_process_submitted {σ ι : Type} (T : TaskShell σ ι) (s : σ) :
    (T.process s).submitted = requiresProcessing (T.checkedOf (T.check s).1) := by
  unfold TaskShell.process
  by_cases hp : (requiresProcessing (T.checkedOf (T.check s).1)).isEmpty
  · rw [if_pos hp]
    exact (List.isEmpty_iff.1 hp).symm
  · rw [if_neg hp]

theorem mem_trueKeys {ι : Type} (m : List (ι × Bool)) (x : ι) :
    x ∈ (m.filter (fun q => q.2)).map Prod.fst ↔ (x, true) ∈ m := by
  simp only [List.mem_map, List.mem_filter]
  constructor
  · rintro ⟨q, ⟨hq, hq2⟩, hq1⟩
    obtain ⟨q1, q2⟩ := q
    simp only at hq1 hq2
    rw [← hq1, ← hq2]
    exact hq
  · intro h
    exact ⟨(x, true), ⟨h, rfl⟩, rfl⟩

/-- Claim C7: `process()` first runs `check()`; when every entry of the
populated CompletionMap is true, it reports that there is nothing to
process and returns success without handing any item to the work function:
the outcome is exactly the post-check state with a `True` return, an empty
submitted batch, and the nothing-to-process message. -/
theorem claim_C7_process_nothing {σ ι : Type} (T : TaskShell σ ι) (s : σ)
    (h : ∀ q ∈ T.checkedOf (T.check s).1, q.2 = true) :
    T.process s = ⟨(T.check s).1, some true, [], true⟩ := by
  simp only [TaskShell.process]
  rw [requiresProcessing_eq_nil _ h]
  rfl

/-- Claim C8: the batch `process()` hands to the work function is exactly
the inputs whose CompletionMap entry is false; in particular (keys being
unique in a dict) an input marked done by the check of that call is never
submitted. -/
theorem claim_C8_pending_batch {σ ι : Type} [DecidableEq ι] (T : TaskShell σ ι) (s : σ)
    (hnd : ((T.checkedOf (T.check s).1).map Prod.fst).Nodup) :
    (T.process s).submitted =
      ((T.checkedOf (T.check s).1).filter (fun q => decide (q.2 = false))).map Prod.fst ∧
    ∀ i, (i, true) ∈ T.checkedOf (T.check s).1 → i ∉ (T.process s).submitted := by
  constructor
  · rw [taskShell_process_submitted]
    unfold requiresProcessing
    congr 1
    apply List.filter_congr
    intro q _
    cases h : q.2 <;> simp [h]
  · intro i hi hmem
    rw [taskShell_process_submitted] at hmem
    have hf : (i, false) ∈ T.checkedOf (T.check s).1 :=
      (mem_requiresProcessing _ _).1 hmem
    exact absurd (dict_value_unique hnd hi hf) (by simp)

/-- `TaskShell` instance wired from the `KrakenLikeCommand` model; the
`none` result of an interrupted loop (unreachable for a tolerant task) maps
to the unchanged state. -/
def klcShell (runCmd : String → FS → FS × Nat) :
    TaskShell (KrakenLikeCommand × FS) String :=
  { check := fun s =>
      (((KrakenLikeCommand.check s.2 s.1).1, s.2), (KrakenLikeCommand.check s.2 s.1).2),
    checkedOf := fun s => s.1._checked_files,
    procFn := fun s pending =>
      match KrakenLikeCommand.processLoop runCmd s.1 pending s.2 [] with
      | some r =>
          (({ s.1 with _output_files := s.1._output_files ++ r.2 }, r.1), none)
      | none => (s, none) }

theorem claim_C7_witness :
    (TaskShell.process (klcShell rcExit1) (klcTolerant, fsAxmlValid)).submitted = [] ∧
    (TaskShell.process (klcShell rcExit1) (klcTolerant, fsAxmlValid)).retval = some true ∧
    (TaskShell.process (klcShell rcExit1) (klcTolerant, fsAxmlValid)).nothingMsg = true := by
  have h := claim_C7_process_nothing (klcShell rcExit1) (klcTolerant, fsAxmlValid)
    (by decide)
  rw [h]
  exact ⟨rfl, rfl, rfl⟩

/-- A Kraken-like task over two pages, of which only `a.png` is done. -/
def klcTwo : KrakenLikeCommand :=
  { klcTolerant with input_files := ["a.png", "b.png"] }

theorem claim_C8_witness :
    ((TaskShell.process (klcShell rcExit1) (klcTwo, fsAxmlValid)).submitted =
      (((klcShell rcExit1).checkedOf
        (((klcShell rcExit1).check (klcTwo, fsAxmlValid)).1)).filter
          (fun q => decide (q.2 = false))).map Prod.fst) ∧
    ∀ i, (i, true) ∈ (klcShell rcExit1).checkedOf
        (((klcShell rcExit1).check (klcTwo, fsAxmlValid)).1) →
      i ∉ (TaskShell.process (klcShell rcExit1) (klcTwo, fsAxmlValid)).submitted :=
  claim_C8_pending_batch (klcShell rcExit1) (klcTwo, fsAxmlValid) (by decide)

/-! ## Claim C1: idempotence of process() -/

/-- When the dict has unique keys all lying inside the input set and every
input's completion value is true, `process()` takes the nothing-to-process
branch. -/
theorem klc_processTask_allDone (runCmd : String → FS → FS × Nat)
    (t : KrakenLikeCommand) (fs : FS)
    (hnd : (t._checked_files.map Prod.fst).Nodup)
    (hkeys : ∀ k, dictLookup t._checked_files k ≠ none → k ∈ t.input_files)
    (hval : ∀ k ∈ t.input_files, t.checkValue fs k = true) :
    KrakenLikeCommand.processTask runCmd t fs =
      some ⟨(KrakenLikeCommand.check fs t).1, fs, some true, [], true⟩ := by
  have hnd2 : (((KrakenLikeCommand.checkLoop fs t t.input_files t._checked_files
      true).1).map Prod.fst).Nodup :=
    klc_checkLoop_nodupKeys fs t _ _ _ hnd
  have hall : ∀ q ∈ (KrakenLikeCommand.check fs t).1._checked_files, q.2 = true := by
    intro q hq
    obtain ⟨q1, q2⟩ := q
    have hlk := (mem_iff_dictLookup hnd2 q1 q2).1 hq
    rw [klc_checkLoop_lookup] at hlk
    by_cases hin : q1 ∈ t.input_files
    · rw [if_pos hin] at hlk
      show q2 = true
      rw [← Option.some.inj hlk]
      exact hval q1 hin
    · rw [if_neg hin] at hlk
      exact absurd (hkeys q1 (by rw [hlk]; simp)) hin
  have hpend : requiresProcessing (KrakenLikeCommand.check fs t).1._checked_files = [] :=
    requiresProcessing_eq_nil _ hall
  simp only [KrakenLikeCommand.processTask]
  rw [hpend]
  rfl

/-- A second `process()` run on a state where every input is done and
already recorded in `_output_files` reports nothing to process and leaves
the output set unchanged (up to membership). -/
theorem klc_secondRun (runCmd : String → FS → FS × Nat)
    (t' : KrakenLikeCommand) (fs' : FS)
    (hnd : (t'._checked_files.map Prod.fst).Nodup)
    (hkeys : ∀ k, dictLookup t'._checked_files k ≠ none → k ∈ t'.input_files)
    (hval : ∀ k ∈ t'.input_files, t'.checkValue fs' k = true)
    (hcover : ∀ k ∈ t'.input_files, k ∈ t'._output_files) :
    ∃ r2, KrakenLikeCommand.processTask runCmd t' fs' = some r2 ∧
      r2.submitted = [] ∧ r2.nothingMsg = true ∧ r2.retval = some true ∧
      (∀ x, x ∈ r2.task.output_files ↔ x ∈ t'.output_files) := by
  refine ⟨_, klc_processTask_allDone runCmd t' fs' hnd hkeys hval, rfl, rfl, rfl, ?_⟩
  intro x
  constructor
  · intro hx
    rcases List.mem_map.1 hx with ⟨y, hy, hxy⟩
    have hy' : y ∈ t'._output_files ++
        (((KrakenLikeCommand.checkLoop fs' t' t'.input_files t'._checked_files
          true).1).filter (fun q => q.2)).map Prod.fst := hy
    rcases List.mem_append.1 hy' with hy1 | hy2
    · exact List.mem_map.2 ⟨y, hy1, hxy⟩
    · have hy2t := (mem_trueKeys _ _).1 hy2
      have hnd2 := klc_checkLoop_nodupKeys fs' t' t'.input_files t'._checked_files
        true hnd
      have hlk2 := (mem_iff_dictLookup hnd2 y true).1 hy2t
      rw [klc_checkLoop_lookup] at hlk2
      have hin : y ∈ t'.input_files := by
        by_cases hin : y ∈ t'.input_files
        · exact hin
        · rw [if_neg hin] at hlk2
          exact hkeys y (by rw [hlk2]; simp)
      exact List.mem_map.2 ⟨y, hcover y hin, hxy⟩
  · intro hx
    rcases List.mem_map.1 hx with ⟨y, hy, hxy⟩
    exact List.mem_map.2 ⟨y, List.mem_append.2 (Or.inl hy), hxy⟩

/-- Claim C1 (counterexample): a tolerant Kraken-like task whose single
command invocation fails leaves the item pending, so a second `process()`
run on the same task with no external filesystem change submits the item
again instead of reporting nothing to process. -/
theorem claim_C1_counterexample :
    ((KrakenLikeCommand.processTask rcExit1 klcTolerant fsEmpty).bind
      (fun r1 => KrakenLikeCommand.processTask rcExit1 r1.task r1.fs)).map
        (fun r2 => r2.submitted) = some ["a.png"] ∧
    (["a.png"] : List String) ≠ [] := by
  exact ⟨rfl, by decide⟩

/-- Claim C1 (amended): for a freshly constructed Kraken-like task, if every
item submitted by the first `process()` run succeeds — its command exits
with a code other than 1 and fully creates that item's content-valid output
file, touching nothing else — and no external filesystem change happens
between the runs, then the second run reports nothing to process, returns
success, submits no item, and leaves the output_files set unchanged. -/
theorem claim_C1_amended_idempotence (t : KrakenLikeCommand) (fs : FS)
    (runCmd : String → FS → FS × Nat)
    (hck : t._checked_files = []) (hout : t._output_files = [])
    (hrun : ∀ s ∈ t.input_files, ∀ fs' : FS,
      (runCmd (t.spawnedCommand s) fs').2 ≠ 1 ∧
      (∀ q, ((runCmd (t.spawnedCommand s) fs').1.pathExists q) =
        (fs'.pathExists q || (q == t.rename s))) ∧
      (∀ q, ((runCmd (t.spawnedCommand s) fs').1.validContent q) =
        (fs'.validContent q || (q == t.rename s)))) :
    ∃ r1 r2, KrakenLikeCommand.processTask runCmd t fs = some r1 ∧
      KrakenLikeCommand.processTask runCmd r1.task r1.fs = some r2 ∧
      r2.submitted = [] ∧ r2.nothingMsg = true ∧ r2.retval = some true ∧
      (∀ x, x ∈ r2.task.output_files ↔ x ∈ r1.task.output_files) := by
  have hcb : (KrakenLikeCommand.check fs t).1._checked_files =
      (KrakenLikeCommand.checkLoop fs t t.input_files [] true).1 := by
    show (KrakenLikeCommand.checkLoop fs t t.input_files t._checked_files true).1 =
      (KrakenLikeCommand.checkLoop fs t t.input_files [] true).1
    rw [hck]
  have lookup1 : ∀ k, dictLookup (KrakenLikeCommand.check fs t).1._checked_files k =
      if k ∈ t.input_files then some (t.checkValue fs k) else none := by
    intro k
    rw [hcb, klc_checkLoop_lookup]
    by_cases h : k ∈ t.input_files
    · rw [if_pos h, if_pos h]
    · rw [if_neg h, if_neg h, dictLookup_nil]
  have nodup1 : (((KrakenLikeCommand.check fs t).1._checked_files).map Prod.fst).Nodup := by
    rw [hcb]
    exact klc_checkLoop_nodupKeys fs t _ _ _ (by simp)
  have hout1 : (KrakenLikeCommand.check fs t).1._output_files =
      (((KrakenLikeCommand.check fs t).1._checked_files).filter
        (fun q => q.2)).map Prod.fst := by
    show t._output_files ++ _ = _
    rw [hout, List.nil_append]
    rfl
  have hpmem : ∀ x, x ∈ requiresProcessing (KrakenLikeCommand.check fs t).1._checked_files ↔
      (x ∈ t.input_files ∧ t.checkValue fs x = false) := by
    intro x
    rw [mem_requiresProcessing, mem_iff_dictLookup nodup1, lookup1]
    by_cases h : x ∈ t.input_files
    · rw [if_pos h]
      constructor
      · intro he
        exact ⟨h, Option.some.inj he⟩
      · rintro ⟨_, hv⟩
        rw [hv]
    · rw [if_neg h]
      constructor
      · intro he
        exact absurd he (by simp)
      · rintro ⟨hx, _⟩
        exact absurd hx h
  have hkeys1 : ∀ k, dictLookup (KrakenLikeCommand.check fs t).1._checked_files k ≠ none →
      k ∈ t.input_files := by
    intro k h
    by_cases hin : k ∈ t.input_files
    · exact hin
    · rw [lookup1, if_neg hin] at h
      exact absurd rfl h
  by_cases hpe : (requiresProcessing (KrakenLikeCommand.check fs t).1._checked_files).isEmpty
  · -- run 1 already finds nothing to do
    have hvalall : ∀ k ∈ t.input_files, t.checkValue fs k = true := by
      intro k hk
      cases hvb : t.checkValue fs k
      · have := (hpmem k).2 ⟨hk, hvb⟩
        rw [List.isEmpty_iff.1 hpe] at this
        exact absurd this (List.not_mem_nil k)
      · rfl
    have hrun1 : KrakenLikeCommand.processTask runCmd t fs =
        some ⟨(KrakenLikeCommand.check fs t).1, fs, some true, [], true⟩ :=
      klc_processTask_allDone runCmd t fs (by rw [hck]; simp)
        (fun k h => by rw [hck, dictLookup_nil] at h; exact absurd rfl h) hvalall
    have hcover : ∀ k ∈ t.input_files, k ∈ (KrakenLikeCommand.check fs t).1._output_files := by
      intro k hk
      have hmem : (k, true) ∈ (KrakenLikeCommand.check fs t).1._checked_files :=
        (mem_iff_dictLookup nodup1 k true).2
          (by rw [lookup1, if_pos hk, hvalall k hk])
      rw [hout1]
      exact (mem_trueKeys _ _).2 hmem
    obtain ⟨r2, h2, hs2, hn2, hr2, hiff⟩ :=
      klc_secondRun runCmd (KrakenLikeCommand.check fs t).1 fs nodup1 hkeys1
        hvalall hcover
    exact ⟨⟨(KrakenLikeCommand.check fs t).1, fs, some true, [], true⟩, r2,
      hrun1, h2, hs2, hn2, hr2, hiff⟩
  · -- run 1 processes the pending items, all succeeding
    have hsubp : ∀ s ∈ requiresProcessing (KrakenLikeCommand.check fs t).1._checked_files,
        s ∈ t.input_files := fun s hs => ((hpmem s).1 hs).1
    obtain ⟨fs2, hloop, hp2, hv2⟩ :=
      klc_processLoop_success runCmd (KrakenLikeCommand.check fs t).1
        (requiresProcessing (KrakenLikeCommand.check fs t).1._checked_files) fs []
        (fun s hs fs' => hrun s (hsubp s hs) fs')
    rw [List.nil_append] at hloop
    have hrun1 : KrakenLikeCommand.processTask runCmd t fs =
        some ⟨{ (KrakenLikeCommand.check fs t).1 with
            _output_files := (KrakenLikeCommand.check fs t).1._output_files ++
              requiresProcessing (KrakenLikeCommand.check fs t).1._checked_files },
          fs2, none,
          requiresProcessing (KrakenLikeCommand.check fs t).1._checked_files,
          false⟩ := by
      simp only [KrakenLikeCommand.processTask]
      rw [if_neg hpe, hloop]
    have hval2 : ∀ k ∈ t.input_files, t.checkValue fs2 k = true := by
      intro k hk
      by_cases hkp : k ∈ requiresProcessing (KrakenLikeCommand.check fs t).1._checked_files
      · have hany : (requiresProcessing
            (KrakenLikeCommand.check fs t).1._checked_files).any
              (fun s => t.rename k ==
                (KrakenLikeCommand.check fs t).1.rename s) = true :=
          List.any_eq_true.2 ⟨k, hkp, beq_self_eq_true (t.rename k)⟩
        have hex : fs2.pathExists (t.rename k) = true := by
          rw [hp2, hany, Bool.or_true]
        have hvv : fs2.validContent (t.rename k) = true := by
          rw [hv2, hany, Bool.or_true]
        unfold KrakenLikeCommand.checkValue
        rw [if_pos hex]
        by_cases hcc : t.check_content = true
        · rw [if_pos hcc]
          exact hvv
        · rw [if_neg hcc]
      · have hvt : t.checkValue fs k = true := by
          cases hvb : t.checkValue fs k
          · exact absurd ((hpmem k).2 ⟨hk, hvb⟩) hkp
          · rfl
        unfold KrakenLikeCommand.checkValue at hvt ⊢
        by_cases he : fs.pathExists (t.rename k) = true
        · have he2 : fs2.pathExists (t.rename k) = true := by
            rw [hp2, he, Bool.true_or]
          rw [if_pos he] at hvt
          rw [if_pos he2]
          by_cases hcc : t.check_content = true
          · rw [if_pos hcc] at hvt ⊢
            rw [hv2, hvt, Bool.true_or]
          · rw [if_neg hcc]
        · rw [if_neg he] at hvt
          exact absurd hvt (by simp)
    have hcover2 : ∀ k ∈ t.input_files,
        k ∈ (KrakenLikeCommand.check fs t).1._output_files ++
          requiresProcessing (KrakenLikeCommand.check fs t).1._checked_files := by
      intro k hk
      cases hvb : t.checkValue fs k
      · exact List.mem_append.2 (Or.inr ((hpmem k).2 ⟨hk, hvb⟩))
      · refine List.mem_append.2 (Or.inl ?_)
        have hmem : (k, true) ∈ (KrakenLikeCommand.check fs t).1._checked_files :=
          (mem_iff_dictLookup nodup1 k true).2
            (by rw [lookup1, if_pos hk, hvb])
        rw [hout1]
        exact (mem_trueKeys _ _).2 hmem
    obtain ⟨r2, h2, hs2, hn2, hr2, hiff⟩ :=
      klc_secondRun runCmd
        { (KrakenLikeCommand.check fs t).1 with
          _output_files := (KrakenLikeCommand.check fs t).1._output_files ++
            requiresProcessing (KrakenLikeCommand.check fs t).1._checked_files }
        fs2 nodup1 hkeys1 hval2 hcover2
    exact ⟨_, r2, hrun1, h2, hs2, hn2, hr2, hiff⟩

theorem claim_C1_witness :
    ∃ r1 r2, KrakenLikeCommand.processTask rcCreateAxml klcTolerant fsEmpty = some r1 ∧
      KrakenLikeCommand.processTask rcCreateAxml r1.task r1.fs = some r2 ∧
      r2.submitted = [] ∧ r2.nothingMsg = true ∧ r2.retval = some true ∧
      (∀ x, x ∈ r2.task.output_files ↔ x ∈ r1.task.output_files) :=
  claim_C1_amended_idempotence klcTolerant fsEmpty rcCreateAxml rfl rfl
    (by
      intro s hs fs'
      have hss : s = "a.png" := List.mem_singleton.1 hs
      subst hss
      exact ⟨Nat.zero_ne_one, fun q => rfl, fun q => rfl⟩)

/-! ## Claim C4: interrupt safety of the image download task -/

theorem wf_rename (f : InputT) (h : wfInput f) :
    ∃ tgt, rename_download f = some tgt := by
  cases f with
  | s v => exact h.elim
  | p u d =>
    have h5 : 5 ≤ (pySplitChar '/' u).length := h
    simp only [rename_download]
    rw [if_pos h5]
    exact ⟨_, rfl⟩

/-- The interrupt handler only removes files, never creates them. -/
theorem interruptCleanup_not_exists (done : List String) (inputs : List InputT)
    (fs fs' : FS) (p : String)
    (h : DownloadIIIFImageTask.interruptCleanup done inputs fs = some fs')
    (hp : fs.pathExists p = false) : fs'.pathExists p = false := by
  induction inputs generalizing fs with
  | nil =>
    simp only [DownloadIIIFImageTask.interruptCleanup, Option.some.injEq] at h
    rw [← h]
    exact hp
  | cons i rest ih =>
    cases i with
    | p url dir =>
      simp only [DownloadIIIFImageTask.interruptCleanup] at h
      by_cases hd : done.contains url
      · rw [if_pos hd] at h
        exact ih fs h hp
      · rw [if_neg hd] at h
        cases hr : rename_download (InputT.p url dir) with
        | none => rw [hr] at h; cases h
        | some tgt =>
          rw [hr] at h
          refine ih _ h ?_
          by_cases he : fs.pathExists tgt
          · rw [if_pos he]
            show (!(p == tgt) && fs.pathExists p) = false
            rw [hp, Bool.and_false]
          · rw [if_neg he]
            exact hp
    | s v =>
      simp only [DownloadIIIFImageTask.interruptCleanup] at h
      split at h
      · split at h
        · exact ih fs h hp
        · cases h
      · cases h

/-- The interrupt handler removes the target of every batch input whose URL
is not in the recorded done list. -/
theorem interruptCleanup_target (done : List String) (inputs : List InputT)
    (fs fs' : FS)
    (h : DownloadIIIFImageTask.interruptCleanup done inputs fs = some fs')
    (url dir tgt : String) (hmem : InputT.p url dir ∈ inputs)
    (hnd : ¬(done.contains url = true))
    (hr : rename_download (InputT.p url dir) = some tgt) :
    fs'.pathExists tgt = false := by
  induction inputs generalizing fs with
  | nil => exact absurd hmem (List.not_mem_nil _)
  | cons i rest ih =>
    rcases List.mem_cons.1 hmem with heq | hmem'
    · subst heq
      simp only [DownloadIIIFImageTask.interruptCleanup] at h
      rw [if_neg hnd, hr] at h
      refine interruptCleanup_not_exists done rest _ fs' tgt h ?_
      by_cases he : fs.pathExists tgt
      · rw [if_pos he]
        show (!(tgt == tgt) && fs.pathExists tgt) = false
        rw [beq_self_eq_true tgt]
        rfl
      · rw [if_neg he]
        exact Bool.not_eq_true _ ▸ he
    · cases i with
      | p url2 dir2 =>
        simp only [DownloadIIIFImageTask.interruptCleanup] at h
        by_cases hd : done.contains url2
        · rw [if_pos hd] at h
          exact ih _ h hmem'
        · rw [if_neg hd] at h
          cases hr2 : rename_download (InputT.p url2 dir2) with
          | none => rw [hr2] at h; cases h
          | some tgt2 =>
            rw [hr2] at h
            exact ih _ h hmem'
      | s v =>
        simp only [DownloadIIIFImageTask.interruptCleanup] at h
        split at h
        · split at h
          · exact ih _ h hmem'
          · cases h
        · cases h

theorem downloadPhase_some (succ halfWritten : InputT → Bool) (l : List InputT)
    (fs : FS) (done : List String) (hwf : ∀ f ∈ l, wfInput f) :
    ∃ r, DownloadIIIFImageTask.downloadPhase succ halfWritten l fs done = some r := by
  induction l generalizing fs done with
  | nil => exact ⟨(fs, done), rfl⟩
  | cons f rest ih =>
    cases f with
    | s v => exact absurd (hwf (InputT.s v) (List.mem_cons_self _ _)) (by exact id)
    | p url dir =>
      obtain ⟨tgt, hr⟩ := wf_rename (InputT.p url dir)
        (hwf _ (List.mem_cons_self _ _))
      have hwf' : ∀ f ∈ rest, wfInput f := fun f hf => hwf f (List.mem_cons_of_mem _ hf)
      simp only [DownloadIIIFImageTask.downloadPhase, hr]
      by_cases hs : succ (InputT.p url dir)
      · rw [if_pos hs]
        exact ih _ _ hwf'
      · rw [if_neg hs]
        exact ih _ _ hwf'

theorem interruptCleanup_some (done : List String) (inputs : List InputT) (fs : FS)
    (hwf : ∀ f ∈ inputs, wfInput f) :
    ∃ fs', DownloadIIIFImageTask.interruptCleanup done inputs fs = some fs' := by
  induction inputs generalizing fs with
  | nil => exact ⟨fs, rfl⟩
  | cons i rest ih =>
    cases i with
    | s v => exact absurd (hwf (InputT.s v) (List.mem_cons_self _ _)) (by exact id)
    | p url dir =>
      obtain ⟨tgt, hr⟩ := wf_rename (InputT.p url dir)
        (hwf _ (List.mem_cons_self _ _))
      have hwf' : ∀ f ∈ rest, wfInput f := fun f hf => hwf f (List.mem_cons_of_mem _ hf)
      simp only [DownloadIIIFImageTask.interruptCleanup]
      by_cases hd : done.contains url
      · rw [if_pos hd]
        exact ih _ hwf'
      · rw [if_neg hd, hr]
        exact ih _ hwf'

theorem dii_checkLoop_none_some (fs : FS) (inputs : List InputT)
    (m : List (InputT × Bool)) (outs : List InputT) (b : Bool)
    (hwf : ∀ f ∈ inputs, wfInput f) :
    ∃ r, DownloadIIIFImageTask.checkLoop fs none inputs m outs b = some r ∧
      ∀ k, dictLookup r.1 k =
        if k ∈ inputs then some (fs.pathExists ((rename_download k).getD ""))
        else dictLookup m k := by
  induction inputs generalizing m outs b with
  | nil =>
    refine ⟨(m, outs, b), rfl, ?_⟩
    intro k
    rw [if_neg (List.not_mem_nil k)]
  | cons f rest ih =>
    obtain ⟨tgt, hr⟩ := wf_rename f (hwf f (List.mem_cons_self f rest))
    have hwf' : ∀ g ∈ rest, wfInput g := fun g hg => hwf g (List.mem_cons_of_mem _ hg)
    have hstep : DownloadIIIFImageTask.checkLoop fs none (f :: rest) m outs b =
        DownloadIIIFImageTask.checkLoop fs none rest
          (dictSet m f (fs.pathExists tgt))
          (if fs.pathExists tgt then outs ++ [f] else outs)
          (if fs.pathExists tgt then b else false) := by
      by_cases hex : fs.pathExists tgt <;>
        simp [DownloadIIIFImageTask.checkLoop, hr, hex]
    obtain ⟨r, hrr, hlk⟩ := ih (dictSet m f (fs.pathExists tgt))
      (if fs.pathExists tgt then outs ++ [f] else outs)
      (if fs.pathExists tgt then b else false) hwf'
    refine ⟨r, by rw [hstep]; exact hrr, ?_⟩
    intro k
    rw [hlk k]
    by_cases hkr : k ∈ rest
    · rw [if_pos hkr, if_pos (List.mem_cons_of_mem f hkr)]
    · rw [if_neg hkr, dictLookup_dictSet]
      by_cases hkf : k = f
      · subst hkf
        rw [if_pos rfl, if_pos (List.mem_cons_self k rest), hr, Option.getD_some]
      · rw [if_neg hkf, if_neg (by
          intro hc
          rcases List.mem_cons.1 hc with hc | hc
          · exact hkf hc
          · exact hkr hc)]

theorem dii_check_some (fs : FS) (t : DownloadIIIFImageTask)
    (hdsc : t.downstream_check = none)
    (hwf : ∀ f ∈ t.input_files, wfInput f) :
    ∃ res, DownloadIIIFImageTask.check fs t = some res ∧
      ∀ k, k ∈ t.input_files →
        dictLookup res.1._checked_files k =
          some (fs.pathExists ((rename_download k).getD "")) := by
  obtain ⟨r, hrr, hlk⟩ := dii_checkLoop_none_some fs t.input_files t._checked_files
    [] true hwf
  have hsb : ∀ {α β : Type} (x : α) (f : α → Option β), (some x >>= f) = f x :=
    fun _ _ => rfl
  refine ⟨({ t with _checked_files := r.1, _output_files := t._output_files ++ r.2.1 }, r.2.2), ?_, ?_⟩
  · simp only [DownloadIIIFImageTask.check, hdsc, hrr, hsb]
  · intro k hk
    show dictLookup r.1 k = _
    rw [hlk k, if_pos hk]

/-- Claim C4: when a `DownloadIIIFImageTask._process` batch is interrupted
after any prefix, every batch input not recorded in the gathered done list
has its target output file absent afterwards (removed if a partial file had
been written), and a subsequent `check()` gives that input a false
CompletionMap entry.  Stated for the variant's own completion oracle (no
injected downstream predicate) over well-formed inputs. -/
theorem claim_C4_interrupt_removes_partial (t : DownloadIIIFImageTask) (fs : FS)
    (succ halfWritten : InputT → Bool) (inputs : List InputT) (k : Nat)
    (hdsc : t.downstream_check = none)
    (hwfI : ∀ f ∈ t.input_files, wfInput f)
    (hwfB : ∀ f ∈ inputs, wfInput f)
    (hsub : ∀ f ∈ inputs, f ∈ t.input_files) :
    ∃ t' fs2 done,
      DownloadIIIFImageTask.processInterrupted succ halfWritten t inputs k fs =
        some (t', fs2, done) ∧
      ∀ url dir tgt, InputT.p url dir ∈ inputs → ¬(done.contains url = true) →
        rename_download (InputT.p url dir) = some tgt →
          fs2.pathExists tgt = false ∧
          ∃ res, DownloadIIIFImageTask.check fs2 t' = some res ∧
            dictLookup res.1._checked_files (InputT.p url dir) = some false := by
  obtain ⟨⟨fs1, done⟩, hdl⟩ := downloadPhase_some succ halfWritten (inputs.take k) fs []
    (fun f hf => hwfB f (List.take_subset k inputs hf))
  obtain ⟨fs2, hcl⟩ := interruptCleanup_some done inputs fs1 hwfB
  have hsb : ∀ {α β : Type} (x : α) (f : α → Option β), (some x >>= f) = f x :=
    fun _ _ => rfl
  have hpi : DownloadIIIFImageTask.processInterrupted succ halfWritten t inputs k fs =
      some ({ t with _output_files := t._output_files ++ done.map InputT.s },
        fs2, done) := by
    simp only [DownloadIIIFImageTask.processInterrupted, hdl, hsb, hcl]
  refine ⟨_, fs2, done, hpi, ?_⟩
  intro url dir tgt hmem hnd hr
  have hrm : fs2.pathExists tgt = false :=
    interruptCleanup_target done inputs fs1 fs2 hcl url dir tgt hmem hnd hr
  refine ⟨hrm, ?_⟩
  obtain ⟨res, hck, hlk⟩ := dii_check_some fs2
    { t with _output_files := t._output_files ++ done.map InputT.s } hdsc hwfI
  refine ⟨res, hck, ?_⟩
  rw [hlk (InputT.p url dir) (hsub _ hmem), hr, Option.getD_some, hrm]

/-- A two-image download task over well-formed IIIF-like URIs. -/
def diiDemo : DownloadIIIFImageTask :=
  { input_files := [InputT.p "u/1/b/c/d/e" "dir", InputT.p "u/2/b/c/d/e" "dir"],
    workers := 1, downstream_check := none, _checked_files := [],
    _output_files := [] }

/-- Download outcome oracle: only the first demo item succeeds. -/
def succFirst : InputT → Bool := fun f => f == InputT.p "u/1/b/c/d/e" "dir"

/-- Every failed download leaves a partially written file behind. -/
def halfAlways : InputT → Bool := fun _ => true

theorem claim_C4_witness :
    ∃ t' fs2 done,
      DownloadIIIFImageTask.processInterrupted succFirst halfAlways diiDemo
        diiDemo.input_files 2 fsEmpty = some (t', fs2, done) ∧
      ∀ url dir tgt, InputT.p url dir ∈ diiDemo.input_files →
        ¬(done.contains url = true) →
        rename_download (InputT.p url dir) = some tgt →
          fs2.pathExists tgt = false ∧
          ∃ res, DownloadIIIFImageTask.check fs2 t' = some res ∧
            dictLookup res.1._checked_files (InputT.p url dir) = some false :=
  claim_C4_interrupt_removes_partial diiDemo fsEmpty succFirst halfAlways
    diiDemo.input_files 2 rfl (by decide) (by decide) (fun f hf => hf)

end Rtk
